import Mathlib

set_option maxRecDepth 10000

/-!
Verification of the corporate-hierarchy extraction core (`src/app.py`).

The document text is modelled as `List Char`.  Python's `re` module is
modelled by a small executable backtracking matcher over a regex AST
(`RE`), reproducing Python's leftmost-first semantics: alternatives are
tried left to right, greedy repetitions prefer longer matches, lazy
repetitions prefer shorter matches, `^` in MULTILINE mode matches at the
start of the text or right after a newline, and `re.search` scans the
anchored matcher along successive positions.  Numeric values parsed by
Python's `float()` are modelled as exact rationals (the capture groups
only ever produce strings of the shape `digits` or `digits.digits`,
which are exactly representable).
-/

/-- A regex AST covering the constructs used by `app.py`'s patterns.
`cls` is a one-character class; case-insensitive compilation (`re.I`) is
baked into the classes/literals of each pattern at construction time.
`alt` tries the left branch first (Python's `|`).  `rep lo hi lz r`
is `r{lo,hi}` (`hi = none` for unbounded), lazy iff `lz`.  `bol` is `^`
under `re.MULTILINE`. -/
inductive RE where
  | eps
  | cls (p : Char → Bool)
  | seq (a b : RE)
  | alt (a b : RE)
  | rep (lo : Nat) (hi : Option Nat) (lz : Bool) (r : RE)
  | grp (i : Nat) (r : RE)
  | bol

/-- Structural size of a regex, used to compute an ample fuel bound. -/
def reSize : RE → Nat
  | .eps => 1
  | .cls _ => 1
  | .bol => 1
  | .seq a b => reSize a + reSize b + 1
  | .alt a b => reSize a + reSize b + 1
  | .grp _ r => reSize r + 1
  | .rep _ _ _ r => reSize r + 1

/-- Captured groups: association list from group index to captured text. -/
abbrev Caps := List (Nat × List Char)

/-- The character preceding the position reached after consuming `n`
characters of `s`, given the character `prev` preceding `s` itself
(used to decide `^` in MULTILINE mode). -/
def prevAfter (prev : Option Char) (s : List Char) (n : Nat) : Option Char :=
  if n = 0 then prev else s[n - 1]?

/-- Backtracking matcher.  `mrun fuel re prev s` returns, in Python's
leftmost-first priority order, the list of `(consumed, captures)` pairs
for every way `re` can match a prefix of `s` (`prev` is the character
just before `s` in the full text).  The head of the list is the match
Python's engine reports.  `fuel` is decremented on every recursive call;
a repetition iterates only with progress (`Python` likewise never
repeats an empty iteration), so along any evaluation path the recursion
depth is at most `(remaining length + 1) * (pattern size + 1)`; all
entry points supply at least `(length + 2) * (size + 2)` fuel, so the
fuel-exhausted branch is never taken on a path that could match. -/
def mrun : Nat → RE → Option Char → List Char → List (Nat × Caps)
  | 0, _, _, _ => []
  | _ + 1, .eps, _, _ => [(0, [])]
  | _ + 1, .cls p, _, s =>
      match s with
      | [] => []
      | c :: _ => if p c then [(1, [])] else []
  | _ + 1, .bol, prev, _ =>
      if prev = none ∨ prev = some '\n' then [(0, [])] else []
  | f + 1, .seq a b, prev, s =>
      (mrun f a prev s).flatMap fun nc =>
        (mrun f b (prevAfter prev s nc.1) (s.drop nc.1)).map fun mc =>
          (nc.1 + mc.1, nc.2 ++ mc.2)
  | f + 1, .alt a b, prev, s => mrun f a prev s ++ mrun f b prev s
  | f + 1, .grp i r, prev, s =>
      (mrun f r prev s).map fun nc => (nc.1, nc.2 ++ [(i, s.take nc.1)])
  | f + 1, .rep lo hi lz r, prev, s =>
      if hi = some 0 then [(0, [])]
      else
        let cont := (mrun f r prev s).flatMap fun nc =>
          if nc.1 = 0 then []
          else
            (mrun f (.rep (lo - 1) (hi.map (· - 1)) lz r)
                (prevAfter prev s nc.1) (s.drop nc.1)).map fun mc =>
              (nc.1 + mc.1, nc.2 ++ mc.2)
        if lo = 0 then (if lz then (0, []) :: cont else cont ++ [(0, [])]) else cont

/-- A regex match: start offset, end offset and captured groups
(mirroring Python's `re.Match`). -/
structure MRes where
  mstart : Nat
  mend : Nat
  caps : Caps
deriving Repr, DecidableEq

/-- `match.group i` (empty for an absent group; the patterns of `app.py`
never leave a group of a successful match unset). -/
def MRes.group (m : MRes) (i : Nat) : List Char :=
  match m.caps.find? (fun pc => pc.1 == i) with
  | some pc => pc.2
  | none => []

/-- Anchored match of `re` at offset `i` of `t`; returns consumed length
and captures of the highest-priority match, like Python's engine tried
at a single position. -/
def matchAt (re : RE) (t : List Char) (i : Nat) : Option (Nat × Caps) :=
  (mrun ((t.length + 2) * (reSize re + 2)) re
      (if i = 0 then none else t[i - 1]?) (t.drop i)).head?

/-- Scan positions `i, i+1, ...` for the first anchored match
(`re.search` semantics); `k` is the number of positions left to try. -/
def searchFromAux (re : RE) (t : List Char) : Nat → Nat → Option MRes
  | 0, _ => none
  | k + 1, i =>
      if i ≤ t.length then
        match matchAt re t i with
        | some (n, g) => some ⟨i, i + n, g⟩
        | none => searchFromAux re t k (i + 1)
      else none

/-- `re.search` starting at offset `i`: leftmost match at or after `i`. -/
def searchFrom (re : RE) (t : List Char) (i : Nat) : Option MRes :=
  searchFromAux re t (t.length + 1 - i) i

/-- `re.finditer` scan: repeatedly search, resuming after each match
(past a zero-width match, from the next position).  The fuel bound
`t.length + 2` suffices because match start positions strictly
increase and stay within `[0, t.length]`. -/
def finditerAux (re : RE) (t : List Char) : Nat → Nat → List MRes
  | 0, _ => []
  | k + 1, i =>
      match searchFrom re t i with
      | none => []
      | some m =>
          m :: finditerAux re t k (if m.mstart < m.mend then m.mend else m.mstart + 1)

/-- `re.finditer`: all non-overlapping matches, left to right. -/
def finditer (re : RE) (t : List Char) : List MRes :=
  finditerAux re t (t.length + 2) 0

/-! ### Character classes and pattern-building helpers -/

/-- `[A-Z]` (case-sensitive). -/
def upperAZ (c : Char) : Bool := 'A' ≤ c && c ≤ 'Z'

/-- `[a-z]` (case-sensitive). -/
def lowerAZ (c : Char) : Bool := 'a' ≤ c && c ≤ 'z'

/-- `[0-9]` / `\d`. -/
def digitC (c : Char) : Bool := '0' ≤ c && c ≤ '9'

/-- `[A-Z]` or `[a-z]` as compiled under `re.IGNORECASE`. -/
def alphaC (c : Char) : Bool := upperAZ c || lowerAZ c

/-- Python `\s` (ASCII whitespace; the documents contain no exotic
Unicode whitespace). -/
def pySpace (c : Char) : Bool :=
  c == ' ' || c == '\t' || c == '\n' || c == '\r' || c == '\x0b' || c == '\x0c'

/-- The class `[A-Za-z0-9\-,&\.\s]` of the name captures. -/
def nameCls (c : Char) : Bool :=
  upperAZ c || lowerAZ c || digitC c || c == '-' || c == ',' || c == '&' || c == '.' || pySpace c

/-- `.` without `re.DOTALL`: any character but a newline. -/
def dotCls (c : Char) : Bool := c != '\n'

/-- Case-sensitive literal character. -/
def lit (c : Char) : RE := .cls (fun x => x == c)

/-- Literal character compiled under `re.IGNORECASE`. -/
def litI (c : Char) : RE := .cls (fun x => x.toLower == c.toLower)

/-- Case-sensitive literal string. -/
def rstr (s : String) : RE := s.data.foldr (fun c r => .seq (lit c) r) .eps

/-- Literal string compiled under `re.IGNORECASE`. -/
def rstrI (s : String) : RE := s.data.foldr (fun c r => .seq (litI c) r) .eps

/-- Sequence of regexes. -/
def rseq (l : List RE) : RE := l.foldr .seq .eps

/-- Left-priority alternation of a list of regexes (Python `|`). -/
def ralts : List RE → RE
  | [] => .eps
  | [r] => r
  | r :: rest => .alt r (ralts rest)

/-- Greedy `+` over a character class. -/
def plus (p : Char → Bool) : RE := .rep 1 none false (.cls p)

/-- Greedy `*` over a character class. -/
def star (p : Char → Bool) : RE := .rep 0 none false (.cls p)

/-- Greedy `?`. -/
def opt (r : RE) : RE := .alt r .eps

/-- Lazy bounded repetition `{lo,hi}?` over a character class. -/
def lazyRep (lo hi : Nat) (p : Char → Bool) : RE := .rep lo (some hi) true (.cls p)

/-- Greedy `+` over an arbitrary regex. -/
def plusRE (r : RE) : RE := .rep 1 none false r

/-- `\s+`. -/
def spaceP : RE := plus pySpace

/-- `\s*`. -/
def spaceS : RE := star pySpace


/-! ### Python string helpers used by the extractors -/

/-- `str.lower()` (ASCII). -/
def lowerL (s : List Char) : List Char := s.map Char.toLower

/-- `str.strip()`: drop leading and trailing whitespace. -/
def pyStrip (s : List Char) : List Char :=
  ((s.dropWhile pySpace).reverse.dropWhile pySpace).reverse

/-- `str.rstrip(chars)`: drop trailing characters from `cs`. -/
def pyRStripChars (cs : List Char) (s : List Char) : List Char :=
  (s.reverse.dropWhile (fun c => cs.contains c)).reverse

/-- Helper for `collapseWS`: `inRun` records whether the previous
character was whitespace (whose run already emitted its single space). -/
def collapseWSAux : Bool → List Char → List Char
  | _, [] => []
  | inRun, c :: rest =>
      if pySpace c then
        if inRun then collapseWSAux true rest else ' ' :: collapseWSAux true rest
      else c :: collapseWSAux false rest

/-- `re.sub(r'\s+', ' ', s)`: collapse every whitespace run to one space. -/
def collapseWS (s : List Char) : List Char := collapseWSAux false s

/-- `str.split()` (no separator): split on whitespace runs, no empties.
`acc` holds the reversed current token. -/
def pySplitAux : List Char → List Char → List (List Char)
  | [], acc => if acc = [] then [] else [acc.reverse]
  | c :: rest, acc =>
      if pySpace c then
        if acc = [] then pySplitAux rest [] else acc.reverse :: pySplitAux rest []
      else pySplitAux rest (c :: acc)

/-- `str.split()` with no argument. -/
def pySplit (s : List Char) : List (List Char) := pySplitAux s []

/-- Digit string to number. -/
def digitsToNat (s : List Char) : Nat :=
  s.foldl (fun n c => n * 10 + (c.toNat - 48)) 0

/-- Syntactic part of Python `float()` on the strings the extractor can
feed it: after stripping surrounding whitespace, accept `digits` or
`digits.digits` (the only shapes the capture group `\d+(?:\.\d+)?`
produces) and return the integer part, fraction digits value and
fraction length; `none` (the `ValueError` path) on anything else. -/
def parseFloatParts (s : List Char) : Option (Nat × Nat × Nat) :=
  let t := pyStrip s
  let ip := t.takeWhile (fun c => c != '.')
  let rest := t.dropWhile (fun c => c != '.')
  match rest with
  | [] =>
      if ip ≠ [] ∧ ip.all digitC then some (digitsToNat ip, 0, 0) else none
  | '.' :: fp =>
      if ip ≠ [] ∧ ip.all digitC ∧ fp ≠ [] ∧ fp.all digitC then
        some (digitsToNat ip, digitsToNat fp, fp.length)
      else none
  | _ => none

/-- Python `float()`, modelled exactly over `ℚ` (every accepted string
denotes the exact decimal it spells, and those are the values the
comparisons `0.1 < x < 100` see up to double rounding, which cannot
change them for the short captures at hand). -/
def parseFloatQ (s : List Char) : Option ℚ :=
  (parseFloatParts s).map fun p => (p.1 : ℚ) + (p.2.1 : ℚ) / ((10 : ℚ) ^ p.2.2)

/-- First index of `needle` in `hay` (textual first occurrence). -/
def leadsWith : List Char → List Char → Bool
  | [], _ => true
  | _ :: _, [] => false
  | a :: as, b :: bs => a == b && leadsWith as bs

/-- Auxiliary scan for `firstOcc`. -/
def firstOccAux (needle : List Char) : List Char → Nat → Option Nat
  | [], i => if leadsWith needle [] then some i else none
  | c :: rest, i =>
      if leadsWith needle (c :: rest) then some i else firstOccAux needle rest (i + 1)

/-- Index of the first occurrence of `needle` in `hay`, if any. -/
def firstOcc (needle hay : List Char) : Option Nat := firstOccAux needle hay 0

/-- `a` is a prefix of `b` (so `b` starts exactly with `a`). -/
def listPre {α : Type} (a b : List α) : Prop := ∃ s, a ++ s = b

/-! ### The regex patterns of `app.py` -/

/-- `^\s*([A-Z][A-Za-z0-9\-,&\.\s]{2,90}?)\s*[\(\-–—]\s*([A-Z][a-z]+(?:\s+[A-Z]{2})?)\s*\)?`
compiled with `re.MULTILINE` (first pattern of `parse_exhibit21`). -/
def exhibitPat1 : RE := rseq [
  .bol, spaceS,
  .grp 1 (rseq [.cls upperAZ, lazyRep 2 90 nameCls]),
  spaceS,
  .cls (fun c => c == '(' || c == '-' || c == '–' || c == '—'),
  spaceS,
  .grp 2 (rseq [.cls upperAZ, plus lowerAZ,
                opt (rseq [spaceP, .cls upperAZ, .cls upperAZ])]),
  spaceS,
  opt (lit ')')
]

/-- `^\s*([A-Z][A-Za-z0-9\-,&\.\s]{2,90}?),\s+([A-Z][a-z]+(?:\s+[A-Z]{2})?)`
compiled with `re.MULTILINE` (second pattern of `parse_exhibit21`). -/
def exhibitPat2 : RE := rseq [
  .bol, spaceS,
  .grp 1 (rseq [.cls upperAZ, lazyRep 2 90 nameCls]),
  lit ',', spaceP,
  .grp 2 (rseq [.cls upperAZ, plus lowerAZ,
                opt (rseq [spaceP, .cls upperAZ, .cls upperAZ])])
]

/-- The `title_keywords` list of `parse_def14a_directors`, in source
order (which fixes the priority of the joined alternation). -/
def titleKeywords : List String :=
  ["Director", "CEO", "President", "Chairman", "CFO", "CTO",
   "Chief Financial Officer", "Chief Executive Officer",
   "General Counsel", "Chief Legal Officer", "Officer",
   "Vice President", "Senior Vice President", "SVP"]

/-- `^[A-Z][a-z]+(?:\s+[A-Z]\.?)?(?:\s+[A-Z][a-z]+)+.*?(<keywords joined by |>)`
compiled with `re.MULTILINE | re.IGNORECASE`: under `re.I` the letter
classes match any ASCII letter and the keywords are case-insensitive. -/
def directorPat : RE := rseq [
  .bol, .cls alphaC, plus alphaC,
  opt (rseq [spaceP, .cls alphaC, opt (lit '.')]),
  plusRE (rseq [spaceP, .cls alphaC, plus alphaC]),
  .rep 0 none true (.cls dotCls),
  .grp 1 (ralts (titleKeywords.map rstrI))
]

/-- The inner name pattern `([A-Z][a-z]+(?:\s+[A-Z]\.?)?(?:\s+[A-Z][a-z]+)+)`
searched with no flags (case-sensitive) in `parse_def14a_directors`. -/
def namePat : RE := .grp 1 (rseq [
  .cls upperAZ, plus lowerAZ,
  opt (rseq [spaceP, .cls upperAZ, opt (lit '.')]),
  plusRE (rseq [spaceP, .cls upperAZ, plus lowerAZ])
])

/-- `([A-Z][A-Za-z0-9\-,&\.\s]{2,80}?)\s+(?:—|–|-|:)?\s*(\d+(?:\.\d+)?)\s*%`
compiled with `re.MULTILINE` (first pattern of
`parse_def14a_beneficial_owners`; it has no `^`, so the flag is inert). -/
def ownersPat1 : RE := rseq [
  .grp 1 (rseq [.cls upperAZ, lazyRep 2 80 nameCls]),
  spaceP,
  opt (ralts [lit '—', lit '–', lit '-', lit ':']),
  spaceS,
  .grp 2 (rseq [plus digitC, opt (rseq [lit '.', plus digitC])]),
  spaceS, lit '%'
]

/-- `([A-Z][A-Za-z0-9\-,&\.\s]{2,80}?)\s+(\d+(?:\.\d+)?)\s*(?:percent|%)`
compiled with `re.MULTILINE` (second pattern of
`parse_def14a_beneficial_owners`). -/
def ownersPat2 : RE := rseq [
  .grp 1 (rseq [.cls upperAZ, lazyRep 2 80 nameCls]),
  spaceP,
  .grp 2 (rseq [plus digitC, opt (rseq [lit '.', plus digitC])]),
  spaceS,
  .alt (rstr "percent") (lit '%')
]

/-! ### Record types -/

/-- A subsidiary record `{"name", "jurisdiction", "type"}`. -/
structure Subsidiary where
  name : List Char
  jurisdiction : List Char
  rtype : List Char
deriving Repr, DecidableEq

/-- A director record `{"name", "role", "type"}`. -/
structure Director where
  name : List Char
  role : List Char
  rtype : List Char
deriving Repr, DecidableEq

/-- A beneficial-owner record `{"name", "ownership", "type"}`. -/
structure Owner where
  name : List Char
  ownership : ℚ
  rtype : List Char
deriving Repr, DecidableEq

/-- The aggregate result of `extract_from_filings`. -/
structure ExtractionResult where
  subsidiaries : List Subsidiary
  directors : List Director
  owners : List Owner
deriving Repr, DecidableEq

/-! ### The seen-set deduplicating accumulation common to all three
extractors.  Each extractor turns every regex match into an optional
candidate record (`none` models a structural rejection such as the
`ValueError` path or a failed inner search), then runs the loop body:
accept the candidate only if its extra condition `ok` holds and its
lowercase key is not in `seen`. -/

/-- One iteration of an extractor loop: state is `(seen, records)`. -/
def dedupStep {ρ : Type} (key : ρ → List Char) (ok : ρ → Prop) [DecidablePred ok]
    (st : List (List Char) × List ρ) (c : Option ρ) : List (List Char) × List ρ :=
  match c with
  | none => st
  | some r => if ok r ∧ key r ∉ st.1 then (key r :: st.1, st.2 ++ [r]) else st

/-- A full `for match in re.finditer(pattern, text)` loop of one
extractor, threaded over the state. -/
def runPass {ρ : Type} (key : ρ → List Char) (ok : ρ → Prop) [DecidablePred ok]
    (pat : RE) (t : List Char) (cand : MRes → Option ρ)
    (st : List (List Char) × List ρ) : List (List Char) × List ρ :=
  List.foldl (dedupStep key ok) st ((finditer pat t).map cand)

/-! ### The three extractors -/

/-- Candidate from one `parse_exhibit21` match: strip both groups, then
collapse whitespace runs in the name. -/
def subsCand (m : MRes) : Option Subsidiary :=
  some ⟨collapseWS (pyStrip (m.group 1)), pyStrip (m.group 2), "subsidiary".data⟩

/-- `parse_exhibit21`'s acceptance condition `len(name) > 2`. -/
def subsOk (r : Subsidiary) : Prop := 2 < r.name.length

instance : DecidablePred subsOk := fun r => inferInstanceAs (Decidable (2 < r.name.length))

/-- Dedup key: `name.lower()`. -/
def subsKey (r : Subsidiary) : List Char := lowerL r.name

/-- `parse_exhibit21`: both patterns in order, sharing one seen-set. -/
def parse_exhibit21 (t : List Char) : List Subsidiary :=
  (runPass subsKey subsOk exhibitPat2 t subsCand
    (runPass subsKey subsOk exhibitPat1 t subsCand ([], []))).2

/-- Candidate from one `parse_def14a_directors` match: re-scan the
window from `max(0, match.start() - 100)` to `match.end()` with the
case-sensitive name pattern; `none` when that inner search fails. -/
def dirCand (t : List Char) (m : MRes) : Option Director :=
  let ls := m.mstart - 100
  let lineText := (t.drop ls).take (m.mend - ls)
  match searchFrom namePat lineText 0 with
  | none => none
  | some nm => some ⟨pyStrip (nm.group 1), pyStrip (m.group 1), "director".data⟩

/-- `parse_def14a_directors`'s condition `len(name.split()) >= 2`. -/
def dirOk (r : Director) : Prop := 2 ≤ (pySplit r.name).length

instance : DecidablePred dirOk := fun r => inferInstanceAs (Decidable (2 ≤ (pySplit r.name).length))

/-- Dedup key: `name.lower()`. -/
def dirKey (r : Director) : List Char := lowerL r.name

/-- `parse_def14a_directors`: a single joined pattern. -/
def parse_def14a_directors (t : List Char) : List Director :=
  (runPass dirKey dirOk directorPat t (dirCand t) ([], [])).2

/-- Candidate from one `parse_def14a_beneficial_owners` match: strip the
name, collapse whitespace, strip trailing `.`/`,`; parse the percentage
(`none` on the `ValueError` path, which `continue`s the loop). -/
def ownCand (m : MRes) : Option Owner :=
  let name := pyRStripChars ['.', ','] (collapseWS (pyStrip (m.group 1)))
  match parseFloatQ (pyStrip (m.group 2)) with
  | none => none
  | some v => some ⟨name, v, "owner".data⟩

/-- The noise filter `0.1 < ownership < 100 and len(name) > 3`. -/
def ownOk (r : Owner) : Prop :=
  (0.1 : ℚ) < r.ownership ∧ r.ownership < 100 ∧ 3 < r.name.length

instance : DecidablePred ownOk := fun r =>
  inferInstanceAs (Decidable ((0.1 : ℚ) < r.ownership ∧ r.ownership < 100 ∧ 3 < r.name.length))

/-- Dedup key: `name.lower()`. -/
def ownKey (r : Owner) : List Char := lowerL r.name

/-- `parse_def14a_beneficial_owners`: both patterns in order, sharing
one seen-set. -/
def parse_def14a_beneficial_owners (t : List Char) : List Owner :=
  (runPass ownKey ownOk ownersPat2 t ownCand
    (runPass ownKey ownOk ownersPat1 t ownCand ([], []))).2

/-! ### `find_section` and the extraction pipeline -/

/-- Inner loop of `find_section`: the start offset (relative to the
section start) of the first end marker, in list order, that matches the
tail; `none` when the list is empty (Python's `end_markers=None`) or no
end marker matches. -/
def firstEndRel : List RE → List Char → Option Nat
  | [], _ => none
  | em :: rest, tail =>
      match searchFrom em tail 0 with
      | some m => some m.mstart
      | none => firstEndRel rest tail

/-- The section cut out once a start-marker match offset is fixed:
bounded by the first matching end marker, else truncated to
`maxChars`. -/
def sectionFrom (t : List Char) (start : Nat) (endMarkers : List RE)
    (maxChars : Nat) : List Char :=
  let tail := t.drop start
  match firstEndRel endMarkers tail with
  | some rel => tail.take rel
  | none => tail.take maxChars

/-- `find_section(text, start_markers, end_markers, max_chars)`: try the
start markers in order (each searched case-insensitively over the whole
text); the first marker with a match anywhere wins and fixes the
section start at its match offset.  Returns empty when no start marker
matches. -/
def find_section (t : List Char) (startMarkers endMarkers : List RE)
    (maxChars : Nat) : List Char :=
  match startMarkers with
  | [] => []
  | m :: rest =>
      match searchFrom m t 0 with
      | some mt => sectionFrom t mt.mstart endMarkers maxChars
      | none => find_section t rest endMarkers maxChars

/-- Start markers `[r"EXHIBIT\s+21", r"exhibit\s+21"]` (both searched
with `re.I`). -/
def exhibit21Markers : List RE :=
  [rseq [rstrI "EXHIBIT", spaceP, rstrI "21"],
   rseq [rstrI "exhibit", spaceP, rstrI "21"]]

/-- End markers `[r"EXHIBIT\s+22", r"SIGNATURES", r"ITEM\s+16"]`. -/
def exhibit21Ends : List RE :=
  [rseq [rstrI "EXHIBIT", spaceP, rstrI "22"],
   rstrI "SIGNATURES",
   rseq [rstrI "ITEM", spaceP, rstrI "16"]]

/-- Start markers `[r"DIRECTORS", r"EXECUTIVE\s+OFFICERS", r"BOARD\s+MEMBERS"]`. -/
def directorsMarkers : List RE :=
  [rstrI "DIRECTORS",
   rseq [rstrI "EXECUTIVE", spaceP, rstrI "OFFICERS"],
   rseq [rstrI "BOARD", spaceP, rstrI "MEMBERS"]]

/-- End markers `[r"EXECUTIVE\s+COMPENSATION", r"COMPENSATION\s+DISCUSSION", r"CD&A"]`. -/
def directorsEnds : List RE :=
  [rseq [rstrI "EXECUTIVE", spaceP, rstrI "COMPENSATION"],
   rseq [rstrI "COMPENSATION", spaceP, rstrI "DISCUSSION"],
   rstrI "CD&A"]

/-- Start markers `[r"BENEFICIAL\s+OWNER", r"SECURITY\s+OWNERSHIP", r"PRINCIPAL\s+SHAREHOLDERS"]`. -/
def ownersMarkers : List RE :=
  [rseq [rstrI "BENEFICIAL", spaceP, rstrI "OWNER"],
   rseq [rstrI "SECURITY", spaceP, rstrI "OWNERSHIP"],
   rseq [rstrI "PRINCIPAL", spaceP, rstrI "SHAREHOLDERS"]]

/-- End markers `[r"EXECUTIVE\s+OFFICERS", r"DIRECTORS", r"PROPOSAL"]`. -/
def ownersEnds : List RE :=
  [rseq [rstrI "EXECUTIVE", spaceP, rstrI "OFFICERS"],
   rstrI "DIRECTORS",
   rstrI "PROPOSAL"]

/-- `extract_from_filings(pdf_10k_text, pdf_14a_text)`: locate each of
the three sections (default `max_chars=20000`) and run the matching
extractor on it; an empty located section short-circuits to an empty
list (`parse(...) if text else []`). -/
def extract_from_filings (pdf10k pdf14a : List Char) : ExtractionResult :=
  let exhibit21Text := find_section pdf10k exhibit21Markers exhibit21Ends 20000
  let subsidiaries := if exhibit21Text ≠ [] then parse_exhibit21 exhibit21Text else []
  let directorsText := find_section pdf14a directorsMarkers directorsEnds 20000
  let directors := if directorsText ≠ [] then parse_def14a_directors directorsText else []
  let ownersText := find_section pdf14a ownersMarkers ownersEnds 20000
  let owners := if ownersText ≠ [] then parse_def14a_beneficial_owners ownersText else []
  ⟨subsidiaries, directors, owners⟩

/-- The extraction part of the `upload` route after text conversion:
run `extract_from_filings` and apply the fallback — if it produced no
subsidiaries and the 10-K text is non-empty, replace the subsidiary
list by `parse_exhibit21` run on the whole DEF 14A text. -/
def pipelineResult (ten_k_text def14a_text : List Char) : ExtractionResult :=
  let result := extract_from_filings ten_k_text def14a_text
  if result.subsidiaries = [] ∧ ten_k_text ≠ [] then
    ⟨parse_exhibit21 def14a_text, result.directors, result.owners⟩
  else result

/-! ### Metrics -/

/-- Python's `round(x, 1)` idealised over `ℚ`: round `10*x` to the
nearest integer, ties to even (banker's rounding), and divide by 10.
The scores it is applied to here are exact one-decimal values. -/
def pyRound1 (q : ℚ) : ℚ :=
  let x := q * 10
  let f : ℤ := ⌊x⌋
  let r : ℚ := x - (f : ℚ)
  let n : ℤ :=
    if r < 1 / 2 then f
    else if 1 / 2 < r then f + 1
    else if f % 2 = 0 then f else f + 1
  (n : ℚ) / 10

/-- `calculate_complexity_score`: capped subsidiary, distinct
jurisdiction and offshore terms, total capped at 10, rounded to one
decimal. -/
def calculate_complexity_score (data : ExtractionResult) : ℚ :=
  let score : ℚ := 0
  let score := score + min ((data.subsidiaries.length : ℚ) / 2) 4
  let countries := ((data.subsidiaries.map (·.jurisdiction)).dedup).length
  let score := score + min ((countries : ℚ) / 2) 3
  let offshore := (data.subsidiaries.filter
    (fun s => ¬(lowerL s.jurisdiction = "us".data ∨ lowerL s.jurisdiction = "usa".data))).length
  let score := score + min ((offshore : ℚ) / 2) 3
  pyRound1 (min score 10)

/-- `calculate_governance_score`: base 5 plus capped director-count and
distinct-role terms, capped at 10, rounded to one decimal. -/
def calculate_governance_score (data : ExtractionResult) : ℚ :=
  let score : ℚ := 5
  let score := score + min ((data.directors.length : ℚ) / 3) 3
  let roles := ((data.directors.map (fun d => lowerL d.role)).dedup).length
  let score := score + min ((roles : ℚ) / 4) 2
  pyRound1 (min score 10)

/-- Stable insert for descending order.  `x` always comes from earlier
in the original list than everything already inserted, so it goes
before the first element that is less than *or equal to* it: among
equal ownerships earlier elements stay earlier — the behaviour of
Python's stable `sorted(..., reverse=True)`. -/
def insertDesc (x : Owner) : List Owner → List Owner
  | [] => [x]
  | y :: ys => if x.ownership < y.ownership then y :: insertDesc x ys else x :: y :: ys

/-- Stable descending sort by ownership
(`sorted(owners, key=..., reverse=True)`). -/
def sortOwnersDesc : List Owner → List Owner
  | [] => []
  | x :: xs => insertDesc x (sortOwnersDesc xs)

/-- `calculate_risk_level`: `"MEDIUM"` for no owners; else sum the top
three ownerships after sorting descending by ownership, and threshold
at 25 and 15. -/
def calculate_risk_level (data : ExtractionResult) : List Char :=
  if data.owners = [] then "MEDIUM".data
  else
    let top := (((sortOwnersDesc data.owners).take 3).map (·.ownership)).sum
    if 25 < top then "HIGH".data
    else if 15 < top then "MEDIUM".data
    else "LOW".data

/-- The metrics record built by `calculate_metrics`. -/
structure Metrics where
  total_subsidiaries : Nat
  total_directors : Nat
  total_owners : Nat
  ownership_concentration : ℚ
  countries : Nat
  complexity_score : ℚ
  governance_score : ℚ
  risk_level : List Char
deriving Repr, DecidableEq

/-- `calculate_metrics`: counts, sum of the ownerships of the first
three owner records in arrival order (`data["owners"][:3]`, unsorted),
distinct jurisdiction count, and the three derived scores. -/
def calculate_metrics (data : ExtractionResult) : Metrics :=
  { total_subsidiaries := data.subsidiaries.length
    total_directors := data.directors.length
    total_owners := data.owners.length
    ownership_concentration := ((data.owners.take 3).map (·.ownership)).sum
    countries := ((data.subsidiaries.map (·.jurisdiction)).dedup).length
    complexity_score := calculate_complexity_score data
    governance_score := calculate_governance_score data
    risk_level := calculate_risk_level data }

/-- The spec's §8 scenario data: four owners with ownerships
`[10, 8, 4, 20]` in arrival order. -/
def resC1 : ExtractionResult :=
  ⟨[], [],
   [⟨"Pa".data, 10, "owner".data⟩, ⟨"Pb".data, 8, "owner".data⟩,
    ⟨"Pc".data, 4, "owner".data⟩, ⟨"Pd".data, 20, "owner".data⟩]⟩

/-! ### General lemmas about the engine and the dedup fold -/

theorem listPre_refl {α : Type} (a : List α) : listPre a a := ⟨[], by simp⟩

theorem listPre_trans {α : Type} {a b c : List α}
    (h1 : listPre a b) (h2 : listPre b c) : listPre a c := by
  obtain ⟨s1, hs1⟩ := h1
  obtain ⟨s2, hs2⟩ := h2
  exact ⟨s1 ++ s2, by rw [← hs2, ← hs1, List.append_assoc]⟩

theorem listPre_take {α : Type} (l : List α) (n : Nat) : listPre (l.take n) l :=
  ⟨l.drop n, List.take_append_drop n l⟩

theorem dedupStep_pre {ρ : Type} (key : ρ → List Char) (ok : ρ → Prop) [DecidablePred ok]
    (st : List (List Char) × List ρ) (c : Option ρ) :
    listPre st.2 (dedupStep key ok st c).2 := by
  cases c with
  | none => exact listPre_refl _
  | some r =>
      by_cases h : ok r ∧ key r ∉ st.1
      · simp only [dedupStep, if_pos h]
        exact ⟨[r], rfl⟩
      · simp only [dedupStep, if_neg h]
        exact listPre_refl _

theorem foldl_dedup_pre {ρ : Type} (key : ρ → List Char) (ok : ρ → Prop) [DecidablePred ok] :
    ∀ (cands : List (Option ρ)) (st : List (List Char) × List ρ),
      listPre st.2 (List.foldl (dedupStep key ok) st cands).2 := by
  intro cands
  induction cands with
  | nil => intro st; exact listPre_refl _
  | cons c rest ih =>
      intro st
      exact listPre_trans (dedupStep_pre key ok st c) (ih (dedupStep key ok st c))

theorem runPass_pre {ρ : Type} (key : ρ → List Char) (ok : ρ → Prop) [DecidablePred ok]
    (pat : RE) (t : List Char) (cand : MRes → Option ρ)
    (st : List (List Char) × List ρ) :
    listPre st.2 (runPass key ok pat t cand st).2 :=
  foldl_dedup_pre key ok _ st

theorem dedupStep_inv {ρ : Type} (key : ρ → List Char) (ok : ρ → Prop) [DecidablePred ok]
    (st : List (List Char) × List ρ) (c : Option ρ)
    (h : (st.2.map key).Nodup ∧ (∀ r ∈ st.2, key r ∈ st.1) ∧ (∀ r ∈ st.2, ok r)) :
    ((dedupStep key ok st c).2.map key).Nodup
      ∧ (∀ r ∈ (dedupStep key ok st c).2, key r ∈ (dedupStep key ok st c).1)
      ∧ (∀ r ∈ (dedupStep key ok st c).2, ok r) := by
  obtain ⟨h1, h2, h3⟩ := h
  cases c with
  | none => exact ⟨h1, h2, h3⟩
  | some r =>
      by_cases hc : ok r ∧ key r ∉ st.1
      · simp only [dedupStep, if_pos hc]
        refine ⟨?_, ?_, ?_⟩
        · rw [List.map_append]
          simp only [List.map_cons, List.map_nil]
          rw [List.nodup_append]
          refine ⟨h1, List.nodup_singleton _, ?_⟩
          intro k hk hk1
          simp only [List.mem_singleton] at hk1
          subst hk1
          obtain ⟨r', hr', hr'k⟩ := List.mem_map.1 hk
          exact hc.2 (hr'k ▸ h2 r' hr')
        · intro x hx
          rcases List.mem_append.1 hx with hx | hx
          · exact List.mem_cons_of_mem _ (h2 x hx)
          · simp only [List.mem_singleton] at hx
            subst hx
            exact List.mem_cons_self _ _
        · intro x hx
          rcases List.mem_append.1 hx with hx | hx
          · exact h3 x hx
          · simp only [List.mem_singleton] at hx
            subst hx
            exact hc.1
      · simp only [dedupStep, if_neg hc]
        exact ⟨h1, h2, h3⟩

theorem foldl_dedup_inv {ρ : Type} (key : ρ → List Char) (ok : ρ → Prop) [DecidablePred ok] :
    ∀ (cands : List (Option ρ)) (st : List (List Char) × List ρ),
      ((st.2.map key).Nodup ∧ (∀ r ∈ st.2, key r ∈ st.1) ∧ (∀ r ∈ st.2, ok r)) →
      (((List.foldl (dedupStep key ok) st cands).2.map key).Nodup
        ∧ (∀ r ∈ (List.foldl (dedupStep key ok) st cands).2,
            key r ∈ (List.foldl (dedupStep key ok) st cands).1)
        ∧ (∀ r ∈ (List.foldl (dedupStep key ok) st cands).2, ok r)) := by
  intro cands
  induction cands with
  | nil => intro st h; exact h
  | cons c rest ih =>
      intro st h
      exact ih (dedupStep key ok st c) (dedupStep_inv key ok st c h)

theorem runPass_inv {ρ : Type} (key : ρ → List Char) (ok : ρ → Prop) [DecidablePred ok]
    (pat : RE) (t : List Char) (cand : MRes → Option ρ)
    (st : List (List Char) × List ρ)
    (h : (st.2.map key).Nodup ∧ (∀ r ∈ st.2, key r ∈ st.1) ∧ (∀ r ∈ st.2, ok r)) :
    (((runPass key ok pat t cand st).2.map key).Nodup
      ∧ (∀ r ∈ (runPass key ok pat t cand st).2, key r ∈ (runPass key ok pat t cand st).1)
      ∧ (∀ r ∈ (runPass key ok pat t cand st).2, ok r)) :=
  foldl_dedup_inv key ok _ st h

theorem runPass_single {ρ : Type} (key : ρ → List Char) (ok : ρ → Prop) [DecidablePred ok]
    (pat : RE) (t : List Char) (cand : MRes → Option ρ)
    (st : List (List Char) × List ρ) (m : MRes)
    (hf : finditer pat t = [m]) :
    runPass key ok pat t cand st = dedupStep key ok st (cand m) := by
  simp only [runPass, hf, List.map, List.foldl]

theorem searchFromAux_bounds (re : RE) (t : List Char) :
    ∀ (k i : Nat) (m : MRes), searchFromAux re t k i = some m →
      i ≤ m.mstart ∧ m.mstart ≤ t.length ∧ m.mstart ≤ m.mend := by
  intro k
  induction k with
  | zero => intro i m h; simp [searchFromAux] at h
  | succ k ih =>
      intro i m h
      simp only [searchFromAux] at h
      by_cases hi : i ≤ t.length
      · rw [if_pos hi] at h
        cases hm : matchAt re t i with
        | some ng =>
            rw [hm] at h
            obtain ⟨n, g⟩ := ng
            simp only [Option.some.injEq] at h
            subst h
            exact ⟨Nat.le_refl _, hi, Nat.le_add_right _ _⟩
        | none =>
            rw [hm] at h
            have := ih (i + 1) m h
            exact ⟨Nat.le_of_succ_le this.1, this.2⟩
      · rw [if_neg hi] at h
        exact absurd h (by simp)

theorem searchFrom_bounds (re : RE) (t : List Char) (i : Nat) (m : MRes)
    (h : searchFrom re t i = some m) :
    i ≤ m.mstart ∧ m.mstart ≤ t.length ∧ m.mstart ≤ m.mend :=
  searchFromAux_bounds re t _ i m h

theorem finditerAux_mono (re : RE) (t : List Char) :
    ∀ (k i : Nat),
      (∀ m ∈ finditerAux re t k i, i ≤ m.mstart)
        ∧ List.Chain' (fun a b => a.mstart < b.mstart) (finditerAux re t k i) := by
  intro k
  induction k with
  | zero => intro i; simp [finditerAux]
  | succ k ih =>
      intro i
      simp only [finditerAux]
      cases hs : searchFrom re t i with
      | none => simp
      | some m =>
          have hb := searchFrom_bounds re t i m hs
          have hij : m.mstart < (if m.mstart < m.mend then m.mend else m.mstart + 1) := by
            split
            · omega
            · omega
          obtain ⟨hall, hchain⟩ := ih (if m.mstart < m.mend then m.mend else m.mstart + 1)
          constructor
          · intro x hx
            rcases List.mem_cons.1 hx with rfl | hx
            · exact hb.1
            · have := hall x hx
              omega
          · rw [List.chain'_cons']
            refine ⟨?_, hchain⟩
            intro b hbm
            have hbmem := List.mem_of_mem_head? hbm
            have := hall b hbmem
            omega

/-- Matches produced by a `finditer` scan come at strictly increasing
start positions. -/
theorem finditer_mono (re : RE) (t : List Char) :
    List.Chain' (fun a b => a.mstart < b.mstart) (finditer re t) :=
  (finditerAux_mono re t (t.length + 2) 0).2

theorem sectionFrom_pre (t : List Char) (s : Nat) (es : List RE) (mc : Nat) :
    listPre (sectionFrom t s es mc) (t.drop s) := by
  simp only [sectionFrom]
  cases h : firstEndRel es (t.drop s) <;> simp only [h] <;> exact listPre_take _ _

theorem find_section_substring :
    ∀ (ms : List RE) (t : List Char) (es : List RE) (mc : Nat),
      find_section t ms es mc ≠ [] →
      ∃ m r, m ∈ ms ∧ searchFrom m t 0 = some r ∧
        listPre (find_section t ms es mc) (t.drop r.mstart) := by
  intro ms
  induction ms with
  | nil => intro t es mc h; simp [find_section] at h
  | cons m rest ih =>
      intro t es mc h
      simp only [find_section] at h ⊢
      cases hs : searchFrom m t 0 with
      | some mt =>
          exact ⟨m, mt, List.mem_cons_self _ _, hs, sectionFrom_pre t mt.mstart es mc⟩
      | none =>
          rw [hs] at h
          obtain ⟨m', r', hm', hr', hp'⟩ := ih t es mc h
          exact ⟨m', r', List.mem_cons_of_mem _ hm', hr', hp'⟩

theorem parse_exhibit21_inv (t : List Char) :
    ((parse_exhibit21 t).map subsKey).Nodup ∧ ∀ r ∈ parse_exhibit21 t, subsOk r := by
  have h0 : ((([], []) : List (List Char) × List Subsidiary).2.map subsKey).Nodup
      ∧ (∀ r ∈ (([], []) : List (List Char) × List Subsidiary).2,
          subsKey r ∈ (([], []) : List (List Char) × List Subsidiary).1)
      ∧ (∀ r ∈ (([], []) : List (List Char) × List Subsidiary).2, subsOk r) := by
    simp
  have h1 := runPass_inv subsKey subsOk exhibitPat1 t subsCand ([], []) h0
  have h2 := runPass_inv subsKey subsOk exhibitPat2 t subsCand _ h1
  exact ⟨h2.1, h2.2.2⟩

theorem parse_def14a_directors_inv (t : List Char) :
    ((parse_def14a_directors t).map dirKey).Nodup ∧ ∀ r ∈ parse_def14a_directors t, dirOk r := by
  have h0 : ((([], []) : List (List Char) × List Director).2.map dirKey).Nodup
      ∧ (∀ r ∈ (([], []) : List (List Char) × List Director).2,
          dirKey r ∈ (([], []) : List (List Char) × List Director).1)
      ∧ (∀ r ∈ (([], []) : List (List Char) × List Director).2, dirOk r) := by
    simp
  have h1 := runPass_inv dirKey dirOk directorPat t (dirCand t) ([], []) h0
  exact ⟨h1.1, h1.2.2⟩

theorem parse_owners_inv (t : List Char) :
    ((parse_def14a_beneficial_owners t).map ownKey).Nodup
      ∧ ∀ r ∈ parse_def14a_beneficial_owners t, ownOk r := by
  have h0 : ((([], []) : List (List Char) × List Owner).2.map ownKey).Nodup
      ∧ (∀ r ∈ (([], []) : List (List Char) × List Owner).2,
          ownKey r ∈ (([], []) : List (List Char) × List Owner).1)
      ∧ (∀ r ∈ (([], []) : List (List Char) × List Owner).2, ownOk r) := by
    simp
  have h1 := runPass_inv ownKey ownOk ownersPat1 t ownCand ([], []) h0
  have h2 := runPass_inv ownKey ownOk ownersPat2 t ownCand _ h1
  exact ⟨h2.1, h2.2.2⟩

theorem pyRound1_natCast (n : ℕ) : pyRound1 (n : ℚ) = n := by
  have hx : ((n : ℚ) * 10) = (((10 * n : ℕ) : ℤ) : ℚ) := by push_cast; ring
  simp only [pyRound1, hx, Int.floor_intCast, sub_self]
  rw [if_pos (by norm_num)]
  push_cast
  ring

theorem pyRound1_zero : pyRound1 0 = 0 := by
  have h := pyRound1_natCast 0
  simpa using h

theorem pyRound1_five : pyRound1 5 = 5 := by
  have h := pyRound1_natCast 5
  simpa using h

theorem find_section_all_none :
    ∀ (ms : List RE) (t : List Char) (es : List RE) (mc : Nat),
      (∀ m ∈ ms, searchFrom m t 0 = none) → find_section t ms es mc = [] := by
  intro ms
  induction ms with
  | nil => intro t es mc _; rfl
  | cons m rest ih =>
      intro t es mc h
      have hm := h m (List.mem_cons_self _ _)
      simp only [find_section, hm]
      exact ih t es mc (fun m' hm' => h m' (List.mem_cons_of_mem _ hm'))

theorem owners_01_empty : parse_def14a_beneficial_owners "Acme Corp 0.1%".data = [] := by
  have h1 : finditer ownersPat1 "Acme Corp 0.1%".data =
      [⟨0, 14, [(1, "Acme Corp".data), (2, "0.1".data)]⟩] := by decide
  have h2 : finditer ownersPat2 "Acme Corp 0.1%".data =
      [⟨0, 14, [(1, "Acme Corp".data), (2, "0.1".data)]⟩] := by decide
  have hc : ownCand ⟨0, 14, [(1, "Acme Corp".data), (2, "0.1".data)]⟩ =
      some ⟨"Acme Corp".data,
        ((0 : Nat) : ℚ) + ((1 : Nat) : ℚ) / ((10 : ℚ) ^ (1 : Nat)), "owner".data⟩ := rfl
  have hno : ¬ ownOk ⟨"Acme Corp".data,
      ((0 : Nat) : ℚ) + ((1 : Nat) : ℚ) / ((10 : ℚ) ^ (1 : Nat)), "owner".data⟩ := by
    simp only [ownOk]
    norm_num
  have hstep : dedupStep ownKey ownOk ([], [])
      (some (⟨"Acme Corp".data,
        ((0 : Nat) : ℚ) + ((1 : Nat) : ℚ) / ((10 : ℚ) ^ (1 : Nat)), "owner".data⟩ : Owner)) =
      ([], []) := by
    simp only [dedupStep]
    rw [if_neg (fun h => hno h.1)]
  rw [parse_def14a_beneficial_owners,
    runPass_single ownKey ownOk ownersPat1 _ ownCand _ _ h1,
    runPass_single ownKey ownOk ownersPat2 _ ownCand _ _ h2,
    hc, hstep, hstep]

theorem owners_100_empty : parse_def14a_beneficial_owners "Acme Corp 100%".data = [] := by
  have h1 : finditer ownersPat1 "Acme Corp 100%".data =
      [⟨0, 14, [(1, "Acme Corp".data), (2, "100".data)]⟩] := by decide
  have h2 : finditer ownersPat2 "Acme Corp 100%".data =
      [⟨0, 14, [(1, "Acme Corp".data), (2, "100".data)]⟩] := by decide
  have hc : ownCand ⟨0, 14, [(1, "Acme Corp".data), (2, "100".data)]⟩ =
      some ⟨"Acme Corp".data,
        ((100 : Nat) : ℚ) + ((0 : Nat) : ℚ) / ((10 : ℚ) ^ (0 : Nat)), "owner".data⟩ := rfl
  have hno : ¬ ownOk ⟨"Acme Corp".data,
      ((100 : Nat) : ℚ) + ((0 : Nat) : ℚ) / ((10 : ℚ) ^ (0 : Nat)), "owner".data⟩ := by
    simp only [ownOk]
    norm_num
  have hstep : dedupStep ownKey ownOk ([], [])
      (some (⟨"Acme Corp".data,
        ((100 : Nat) : ℚ) + ((0 : Nat) : ℚ) / ((10 : ℚ) ^ (0 : Nat)), "owner".data⟩ : Owner)) =
      ([], []) := by
    simp only [dedupStep]
    rw [if_neg (fun h => hno h.1)]
  rw [parse_def14a_beneficial_owners,
    runPass_single ownKey ownOk ownersPat1 _ ownCand _ _ h1,
    runPass_single ownKey ownOk ownersPat2 _ ownCand _ _ h2,
    hc, hstep, hstep]

theorem owners_50_kept : parse_def14a_beneficial_owners "Acme Corp 50.0%".data =
    [⟨"Acme Corp".data, 50, "owner".data⟩] := by
  have h1 : finditer ownersPat1 "Acme Corp 50.0%".data =
      [⟨0, 15, [(1, "Acme Corp".data), (2, "50.0".data)]⟩] := by decide
  have h2 : finditer ownersPat2 "Acme Corp 50.0%".data =
      [⟨0, 15, [(1, "Acme Corp".data), (2, "50.0".data)]⟩] := by decide
  have hc : ownCand ⟨0, 15, [(1, "Acme Corp".data), (2, "50.0".data)]⟩ =
      some ⟨"Acme Corp".data,
        ((50 : Nat) : ℚ) + ((0 : Nat) : ℚ) / ((10 : ℚ) ^ (1 : Nat)), "owner".data⟩ := rfl
  have hok : ownOk ⟨"Acme Corp".data,
      ((50 : Nat) : ℚ) + ((0 : Nat) : ℚ) / ((10 : ℚ) ^ (1 : Nat)), "owner".data⟩ :=
    ⟨by norm_num, by norm_num, by decide⟩
  have hstep1 : dedupStep ownKey ownOk ([], [])
      (some (⟨"Acme Corp".data,
        ((50 : Nat) : ℚ) + ((0 : Nat) : ℚ) / ((10 : ℚ) ^ (1 : Nat)), "owner".data⟩ : Owner)) =
      ([ownKey ⟨"Acme Corp".data,
          ((50 : Nat) : ℚ) + ((0 : Nat) : ℚ) / ((10 : ℚ) ^ (1 : Nat)), "owner".data⟩],
       [⟨"Acme Corp".data,
          ((50 : Nat) : ℚ) + ((0 : Nat) : ℚ) / ((10 : ℚ) ^ (1 : Nat)), "owner".data⟩]) := by
    simp only [dedupStep]
    rw [if_pos ⟨hok, List.not_mem_nil _⟩]
    simp
  have hstep2 : dedupStep ownKey ownOk
      ([ownKey ⟨"Acme Corp".data,
          ((50 : Nat) : ℚ) + ((0 : Nat) : ℚ) / ((10 : ℚ) ^ (1 : Nat)), "owner".data⟩],
       [⟨"Acme Corp".data,
          ((50 : Nat) : ℚ) + ((0 : Nat) : ℚ) / ((10 : ℚ) ^ (1 : Nat)), "owner".data⟩])
      (some (⟨"Acme Corp".data,
        ((50 : Nat) : ℚ) + ((0 : Nat) : ℚ) / ((10 : ℚ) ^ (1 : Nat)), "owner".data⟩ : Owner)) =
      ([ownKey ⟨"Acme Corp".data,
          ((50 : Nat) : ℚ) + ((0 : Nat) : ℚ) / ((10 : ℚ) ^ (1 : Nat)), "owner".data⟩],
       [⟨"Acme Corp".data,
          ((50 : Nat) : ℚ) + ((0 : Nat) : ℚ) / ((10 : ℚ) ^ (1 : Nat)), "owner".data⟩]) := by
    simp only [dedupStep]
    rw [if_neg (fun h => h.2 (List.mem_cons_self _ _))]
  rw [parse_def14a_beneficial_owners,
    runPass_single ownKey ownOk ownersPat1 _ ownCand _ _ h1,
    runPass_single ownKey ownOk ownersPat2 _ ownCand _ _ h2,
    hc, hstep1, hstep2]
  simp only [List.cons.injEq, Owner.mk.injEq]
  norm_num

theorem complexity_empty : calculate_complexity_score ⟨[], [], []⟩ = 0 := by
  simp only [calculate_complexity_score, List.length_nil, List.map_nil, List.dedup_nil,
    List.filter_nil, Nat.cast_zero]
  rw [min_eq_left (by norm_num), min_eq_left (by norm_num), min_eq_left (by norm_num)]
  norm_num [pyRound1_zero]

theorem governance_empty : calculate_governance_score ⟨[], [], []⟩ = 5 := by
  simp only [calculate_governance_score, List.length_nil, List.map_nil, List.dedup_nil,
    Nat.cast_zero]
  rw [min_eq_left (by norm_num), min_eq_left (by norm_num)]
  norm_num [pyRound1_five]

/-! ### Claim theorems -/

/-- C1: `ownership_concentration` is the sum of the ownership values of
the first three owner records in result (arrival) order, while
`risk_level` is derived from the sum of the top three owners sorted by
ownership value descending (`> 25` gives HIGH, `> 15` gives MEDIUM, else
LOW; MEDIUM when there are no owners); in particular, for owners with
ownerships `[10, 8, 4, 20]` in that order, the metrics have
`ownership_concentration = 22` and `risk_level = HIGH`. -/
theorem C1_concentration_unsorted_risk_sorted :
    (∀ res : ExtractionResult, (calculate_metrics res).ownership_concentration
        = ((res.owners.take 3).map Owner.ownership).sum)
    ∧ (∀ res : ExtractionResult, calculate_risk_level res =
        if res.owners = [] then "MEDIUM".data
        else if 25 < (((sortOwnersDesc res.owners).take 3).map Owner.ownership).sum
          then "HIGH".data
        else if 15 < (((sortOwnersDesc res.owners).take 3).map Owner.ownership).sum
          then "MEDIUM".data
        else "LOW".data)
    ∧ (calculate_metrics resC1).ownership_concentration = 22
    ∧ (calculate_metrics resC1).risk_level = "HIGH".data := by
  refine ⟨fun res => rfl, fun res => rfl, ?_, ?_⟩
  · simp only [resC1, calculate_metrics, List.take, List.map, List.sum_cons, List.sum_nil]
    norm_num
  · simp only [resC1, calculate_metrics, calculate_risk_level]
    rw [if_neg (by simp)]
    norm_num [sortOwnersDesc, insertDesc]

/-- C2: whenever step 1 (Exhibit-21 location in the 10-K text followed
by subsidiary extraction) produced zero subsidiaries and the 10-K text
is non-empty, the pipeline's final subsidiary list equals what
`parse_exhibit21` produces when run directly on the entire DEF 14A
text. -/
theorem C2_fallback_uses_whole_def14a (a b : List Char)
    (h1 : (extract_from_filings a b).subsidiaries = []) (h2 : a ≠ []) :
    (pipelineResult a b).subsidiaries = parse_exhibit21 b := by
  simp only [pipelineResult]
  rw [if_pos ⟨h1, h2⟩]

/-- Witness for C2 at a concrete filing pair: `"x"` contains no
Exhibit 21 section, so the fallback extracts from the DEF 14A text. -/
theorem C2_fallback_uses_whole_def14a_witness :
    (extract_from_filings "x".data "Beta Inc (Japan)\n".data).subsidiaries = []
    ∧ "x".data ≠ ([] : List Char)
    ∧ (pipelineResult "x".data "Beta Inc (Japan)\n".data).subsidiaries =
        parse_exhibit21 "Beta Inc (Japan)\n".data :=
  ⟨by decide, by decide, C2_fallback_uses_whole_def14a _ _ (by decide) (by decide)⟩

/-- C3: in the director extractor, the title keyword is matched
case-insensitively (the whole line pattern carries `re.I`: `dIrEcToR`
still produces a record, its role being the capture that actually
matched, here `cTo` inside it) while the name that becomes the record
comes from a separate case-sensitive capitalized-shape search (an
all-caps `JOHN SMITH` line yields nothing); a candidate is rejected if
its name has fewer than 2 whitespace-separated tokens or its lowercase
form was already seen (the second `John Smith` line below is
dropped). -/
theorem C3_director_case_rules :
    (∀ t : List Char, ∀ d ∈ parse_def14a_directors t, 2 ≤ (pySplit d.name).length)
    ∧ (∀ t : List Char, ((parse_def14a_directors t).map dirKey).Nodup)
    ∧ parse_def14a_directors "John Smith dIrEcToR".data =
        [⟨"John Smith".data, "cTo".data, "director".data⟩]
    ∧ parse_def14a_directors "JOHN SMITH Director".data = []
    ∧ parse_def14a_directors "John Smith CEO\n9\nJohn Smith Chairman\n".data =
        [⟨"John Smith".data, "CEO".data, "director".data⟩] :=
  ⟨fun t d hd => (parse_def14a_directors_inv t).2 d hd,
   fun t => (parse_def14a_directors_inv t).1,
   by decide, by decide, by decide⟩

/-- Witness for C3 instantiating the token-count guard at a concrete
extracted director. -/
theorem C3_director_case_rules_witness :
    (⟨"John Smith".data, "cTo".data, "director".data⟩ : Director) ∈
        parse_def14a_directors "John Smith dIrEcToR".data
    ∧ 2 ≤ (pySplit "John Smith".data).length :=
  ⟨by decide, C3_director_case_rules.1 "John Smith dIrEcToR".data
    ⟨"John Smith".data, "cTo".data, "director".data⟩ (by decide)⟩

/-- C4 counterexample: the extractors run their pattern sets one after
another over the whole window, so output order follows pattern order
first and text order only within one pattern.  In this text
`Acme Corp` (matched only by the second, comma-form pattern) occurs at
offset 0 and `Beta Inc` (matched only by the first, parenthesis-form
pattern) at offset 22, yet the output lists `Beta Inc` first —
refuting "the record whose first textual occurrence comes earlier
appears earlier in the output". -/
theorem C4_counterexample :
    parse_exhibit21 "Acme Corp, Ireland\n::\nBeta Inc (Japan)\n".data =
      [⟨"Beta Inc".data, "Japan".data, "subsidiary".data⟩,
       ⟨"Acme Corp".data, "Ireland".data, "subsidiary".data⟩]
    ∧ firstOcc "Acme Corp".data "Acme Corp, Ireland\n::\nBeta Inc (Japan)\n".data = some 0
    ∧ firstOcc "Beta Inc".data "Acme Corp, Ireland\n::\nBeta Inc (Japan)\n".data = some 22 :=
  ⟨by decide, by decide, by decide⟩

/-- C4 (amended): within a single pattern's scan, matches are produced
at strictly increasing start positions (so records from one pattern
appear in first-match order), and each two-pattern extractor's output
list is the first pattern's accepted records, in that scan order, as a
prefix, followed by the second pattern's; across the two patterns
first-occurrence order is not respected. -/
theorem C4_amended_order_within_pattern :
    (∀ (re : RE) (t : List Char),
        List.Chain' (fun a b => a.mstart < b.mstart) (finditer re t))
    ∧ (∀ t : List Char,
        listPre (runPass subsKey subsOk exhibitPat1 t subsCand ([], [])).2
          (parse_exhibit21 t))
    ∧ (∀ t : List Char,
        listPre (runPass ownKey ownOk ownersPat1 t ownCand ([], [])).2
          (parse_def14a_beneficial_owners t)) :=
  ⟨finditer_mono,
   fun t => runPass_pre subsKey subsOk exhibitPat2 t subsCand _,
   fun t => runPass_pre ownKey ownOk ownersPat2 t ownCand _⟩

/-- C5: `find_section` tries start markers in priority order and uses
the first marker in list order that matches anywhere (not the one
matching at the earliest position: below `XX` is listed first and wins
although `YY` matches earlier in the text); when end markers are given
the section is bounded at the first end marker in list order that
matches after the start offset (`E1` wins although `E2` matches
earlier); when no end marker is given or none matches the section is
truncated to `maxChars`; when no start marker matches the result is
empty. -/
theorem C5_marker_priority :
    (∀ (t : List Char) (es : List RE) (mc : Nat), find_section t [] es mc = [])
    ∧ (∀ (t : List Char) (m : RE) (ms es : List RE) (mc : Nat),
        searchFrom m t 0 = none →
        find_section t (m :: ms) es mc = find_section t ms es mc)
    ∧ (∀ (t : List Char) (m : RE) (ms es : List RE) (mc : Nat) (r : MRes),
        searchFrom m t 0 = some r →
        find_section t (m :: ms) es mc = sectionFrom t r.mstart es mc)
    ∧ (∀ (t : List Char) (s : Nat) (es : List RE) (mc rel : Nat),
        firstEndRel es (t.drop s) = some rel →
        sectionFrom t s es mc = (t.drop s).take rel)
    ∧ (∀ (t : List Char) (s : Nat) (es : List RE) (mc : Nat),
        firstEndRel es (t.drop s) = none →
        sectionFrom t s es mc = (t.drop s).take mc)
    ∧ (∀ (ms : List RE) (t : List Char) (es : List RE) (mc : Nat),
        (∀ m ∈ ms, searchFrom m t 0 = none) → find_section t ms es mc = [])
    ∧ (searchFrom (rstrI "YY") "YY XX".data 0 = some ⟨0, 2, []⟩
        ∧ searchFrom (rstrI "XX") "YY XX".data 0 = some ⟨3, 5, []⟩
        ∧ find_section "YY XX".data [rstrI "XX", rstrI "YY"] [] 100 = "XX".data)
    ∧ find_section "S a E2 b E1".data [rstrI "S"] [rstrI "E1", rstrI "E2"] 100 =
        "S a E2 b ".data
    ∧ find_section "START abcdefgh".data [rstrI "START"] [rstrI "NOPE"] 7 =
        "START a".data := by
  refine ⟨fun t es mc => rfl, ?_, ?_, ?_, ?_, find_section_all_none,
    ⟨by decide, by decide, by decide⟩, by decide, by decide⟩
  · intro t m ms es mc h
    simp only [find_section, h]
  · intro t m ms es mc r h
    simp only [find_section, h]
  · intro t s es mc rel h
    simp only [sectionFrom, h]
  · intro t s es mc h
    simp only [sectionFrom, h]

/-- Witness for C5 instantiating the marker equations at a concrete
text and marker list. -/
theorem C5_marker_priority_witness :
    searchFrom (rstrI "B") "aB".data 0 = some ⟨1, 2, []⟩
    ∧ find_section "aB".data [rstrI "B"] [] 5 = sectionFrom "aB".data 1 [] 5 :=
  ⟨by decide, C5_marker_priority.2.2.1 _ _ _ _ _ ⟨1, 2, []⟩ (by decide)⟩

/-- C6: the beneficial-owner extractor keeps a candidate record exactly
when its extra condition holds and its lowercase name was not already
seen, and that extra condition is precisely `0.1 < ownership < 100`
(both endpoints excluded) together with name length `> 3`; every
extracted owner satisfies those bounds, a captured `0.1` or `100` is
dropped and `50.0` is kept. -/
theorem C6_ownership_filter :
    (∀ (st : List (List Char) × List Owner) (r : Owner),
        (dedupStep ownKey ownOk st (some r)).2 =
          if ownOk r ∧ ownKey r ∉ st.1 then st.2 ++ [r] else st.2)
    ∧ (∀ r : Owner, ownOk r ↔
        ((0.1 : ℚ) < r.ownership ∧ r.ownership < 100 ∧ 3 < r.name.length))
    ∧ (∀ t : List Char, ∀ o ∈ parse_def14a_beneficial_owners t,
        (0.1 : ℚ) < o.ownership ∧ o.ownership < 100 ∧ 3 < o.name.length)
    ∧ parse_def14a_beneficial_owners "Acme Corp 0.1%".data = []
    ∧ parse_def14a_beneficial_owners "Acme Corp 100%".data = []
    ∧ parse_def14a_beneficial_owners "Acme Corp 50.0%".data =
        [⟨"Acme Corp".data, 50, "owner".data⟩] := by
  refine ⟨?_, fun r => Iff.rfl, fun t o ho => (parse_owners_inv t).2 o ho,
    owners_01_empty, owners_100_empty, owners_50_kept⟩
  intro st r
  simp only [dedupStep]
  split
  · rfl
  · rfl

/-- Witness for C6 instantiating the bounds at the concretely extracted
`50.0` owner. -/
theorem C6_ownership_filter_witness :
    (⟨"Acme Corp".data, 50, "owner".data⟩ : Owner) ∈
        parse_def14a_beneficial_owners "Acme Corp 50.0%".data
    ∧ ((0.1 : ℚ) < (50 : ℚ) ∧ (50 : ℚ) < 100 ∧ 3 < ("Acme Corp".data).length) := by
  have hm : (⟨"Acme Corp".data, 50, "owner".data⟩ : Owner) ∈
      parse_def14a_beneficial_owners "Acme Corp 50.0%".data := by
    rw [owners_50_kept]
    exact List.mem_cons_self _ _
  exact ⟨hm, C6_ownership_filter.2.2.1 _ _ hm⟩

/-- C7: within each record list returned by an extractor, names are
unique case-insensitively (the lists of lowercased names are without
duplicates), and for a text with two case-variant occurrences of the
same name exactly one record survives, carrying the first-encountered
textual form (`Acme Corp`, not `ACME CORP`). -/
theorem C7_caseinsensitive_dedup :
    (∀ t : List Char, ((parse_exhibit21 t).map subsKey).Nodup)
    ∧ (∀ t : List Char, ((parse_def14a_directors t).map dirKey).Nodup)
    ∧ (∀ t : List Char, ((parse_def14a_beneficial_owners t).map ownKey).Nodup)
    ∧ parse_exhibit21 "Acme Corp (Ireland)\nACME CORP (Ireland)\n".data =
        [⟨"Acme Corp".data, "Ireland".data, "subsidiary".data⟩] :=
  ⟨fun t => (parse_exhibit21_inv t).1,
   fun t => (parse_def14a_directors_inv t).1,
   fun t => (parse_owners_inv t).1,
   by decide⟩

/-- C8: the extractors and pipeline are total functions that degrade
gracefully: a numeric capture that fails to parse is skipped (the loop
state is unchanged on a `none` candidate, and a non-numeric capture
yields `none`), empty or match-free input yields empty lists, and on
the fully empty result the metrics are `complexity_score = 0.0`,
`governance_score = 5.0` and `risk_level = MEDIUM`. -/
theorem C8_graceful_degradation :
    (∀ st : List (List Char) × List Owner, dedupStep ownKey ownOk st none = st)
    ∧ ownCand ⟨0, 0, [(1, "Good Name".data), (2, "abc".data)]⟩ = none
    ∧ parse_exhibit21 [] = []
    ∧ parse_def14a_directors [] = []
    ∧ parse_def14a_beneficial_owners [] = []
    ∧ parse_exhibit21 "no matches here\n".data = []
    ∧ extract_from_filings [] [] = ⟨[], [], []⟩
    ∧ (calculate_metrics ⟨[], [], []⟩).complexity_score = 0
    ∧ (calculate_metrics ⟨[], [], []⟩).governance_score = 5
    ∧ (calculate_metrics ⟨[], [], []⟩).risk_level = "MEDIUM".data := by
  refine ⟨fun st => rfl, rfl, by decide, by decide, by decide, by decide, by decide,
    ?_, ?_, rfl⟩
  · simpa only [calculate_metrics] using complexity_empty
  · simpa only [calculate_metrics] using governance_empty

/-- C9: every extractor is deterministic — running the same extractor
twice on identical input yields identical ordered output; in this
embedding each extractor is a pure function of its input text, exactly
as the source has no instance-level or module-level mutable state. -/
theorem C9_deterministic :
    ∀ t : List Char,
      (parse_exhibit21 t, parse_def14a_directors t, parse_def14a_beneficial_owners t)
        = (parse_exhibit21 t, parse_def14a_directors t, parse_def14a_beneficial_owners t) :=
  fun _ => rfl

/-- C10: a non-empty `find_section` result is a contiguous substring of
the input beginning exactly at the start-marker match offset (it is a
prefix of the text dropped at that offset), and the `maxChars` bound
applies only on the no-end-marker-match branch: with `maxChars = 3`,
an end-marker match still yields the 14-character section up to the
end marker. -/
theorem C10_substring_and_maxchars :
    (∀ (ms : List RE) (t : List Char) (es : List RE) (mc : Nat),
        find_section t ms es mc ≠ [] →
        ∃ m r, m ∈ ms ∧ searchFrom m t 0 = some r ∧
          listPre (find_section t ms es mc) (t.drop r.mstart))
    ∧ find_section "START abcdefg END".data [rstrI "START"] [rstrI "END"] 3 =
        "START abcdefg ".data
    ∧ 3 < ("START abcdefg ".data).length :=
  ⟨find_section_substring, by decide, by decide⟩

/-- Witness for C10 instantiating the substring characterisation at a
concrete text. -/
theorem C10_substring_and_maxchars_witness :
    find_section "aB".data [rstrI "B"] [] 5 ≠ []
    ∧ (∃ m r, m ∈ [rstrI "B"] ∧ searchFrom m "aB".data 0 = some r ∧
        listPre (find_section "aB".data [rstrI "B"] [] 5) ("aB".data.drop r.mstart)) :=
  ⟨by decide, C10_substring_and_maxchars.1 _ _ _ _ (by decide)⟩
